import Mathlib

/-!
Verification of the metadata-extraction helpers in crawler/upload/helper.py.

The file shallowly embeds the pure, post-network part of the four functions
of that module:

* transform (dictionary remapping onto a schema.org document);
* pmid_to_funding (parsing of grant strings scraped from a PubMed HTML page);
* pmid_with_eutils (grant and citation extraction from a parsed XML record).

Network fetching and the third-party HTML/XML parsers are external
collaborators; the embedding starts from their outputs (the list of heading
sections with their link texts, respectively the parsed XML tree).  Python
values appearing in the documents are modelled by the type Val, Python
dictionaries by insertion-ordered association lists, and Python exceptions
by the Except monad with the error type PyError.
-/

/-- Python exceptions that the embedded code can raise.  The names follow
the concrete exception classes raised by the Python source: RuntimeError is
raised by transform on an invalid mapping entry (the kind the specification
calls ConfigurationError), ParseError by xml.etree ElementTree.fromstring on
a malformed or empty body, AssertionError by the assert statement on a
childless root, AttributeError by reading .text on a missing Author child,
and NameError stands for the UnboundLocalError of an unassigned local. -/
inductive PyError where
  | runtimeError
  | parseError
  | assertionError
  | attributeError
  | nameError
deriving DecidableEq

/-- Python values stored in the documents that the module builds: strings,
the constant None, and nested dictionaries (insertion-ordered lists of
key/value pairs). -/
inductive Val where
  | s (x : String)
  | n
  | obj (fields : List (String × Val))

/-- Splitting of a character list on a separator character, with the same
result as the Python str.split method with an explicit separator: splitting
the empty string yields one empty part, and adjacent separators yield empty
parts. -/
def splitOnChar (sep : Char) : List Char → List (List Char)
  | [] => [[]]
  | c :: rest =>
    let r := splitOnChar sep rest
    if c = sep then [] :: r
    else match r with
         | [] => [[c]]
         | h :: t => (c :: h) :: t

/-- Joining of a list of strings with a separator, as the Python str.join
method. -/
def joinSep (sep : String) : List String → String
  | [] => ""
  | x :: xs => xs.foldl (fun acc y => acc ++ sep ++ y) x

/-- Python str.rsplit with a maximal number of splits: all separators are
split, then all parts except the rightmost maxsplit ones are joined back
together. -/
def pyRsplit (s : String) (sep : Char) (maxsplit : Nat) : List String :=
  let parts := (splitOnChar sep s.data).map String.mk
  if parts.length ≤ maxsplit + 1 then parts
  else joinSep (String.mk [sep]) (parts.take (parts.length - maxsplit)) ::
    parts.drop (parts.length - maxsplit)

/-- Python slicing s[:-k]: the string without its last k characters, empty
when the string has at most k characters. -/
def pyDropRight (s : String) (k : Nat) : String :=
  String.mk (s.data.take (s.data.length - k))

/-- A character is cased when it is an uppercase or a lowercase letter. -/
def pyCased (c : Char) : Bool := c.isUpper || c.isLower

/-- Python str.isupper: at least one cased character and no lowercase
character. -/
def pyIsUpper (s : String) : Bool :=
  s.data.any pyCased && s.data.all (fun c => !c.isLower)

/-- Whether the first list is an initial run of the second. -/
def leadMatch : List Char → List Char → Bool
  | [], _ => true
  | _ :: _, [] => false
  | a :: as, b :: bs => a == b && leadMatch as bs

/-- Whether the first list occurs contiguously inside the second. -/
def containsSub (needle : List Char) : List Char → Bool
  | [] => needle.isEmpty
  | c :: rest => leadMatch needle (c :: rest) || containsSub needle rest

/-- Python substring membership: pyContains s t holds when t occurs in s. -/
def pyContains (s t : String) : Bool := containsSub t.data s.data

/-- Python str conversion of an optional string, as used by an f-string
interpolation: None renders as the four letters None. -/
def pyStr : Option String → String
  | some s => s
  | none => "None"

/-- Assignment d[k] = v on an insertion-ordered dictionary: the value of an
existing key is replaced in place, a new key is appended at the end. -/
def dictSet (d : List (String × Val)) (k : String) (v : Val) : List (String × Val) :=
  if d.any (fun kv => kv.1 == k) then
    d.map (fun kv => if kv.1 == k then (k, v) else kv)
  else d ++ [(k, v)]

/-- Python dict.update: every pair of the second dictionary is assigned into
the first, in order. -/
def dictUpdate (d : List (String × Val)) (m : List (String × Val)) : List (String × Val) :=
  m.foldl (fun acc kv => dictSet acc kv.1 kv.2) d

/-- Keys of a dictionary, in order. -/
def keysOf (d : List (String × Val)) : List String := d.map Prod.fst

/-- Ordering of dictionary entries used by dict(sorted(items)): entries are
compared by their keys.  Since dictionary keys are unique, the value
component never takes part in the comparison. -/
def keyLe (a b : String × Val) : Prop := a.1 ≤ b.1

/-- Decidability of the string order through the character-list order, so
that sorting computes by kernel reduction. -/
def strLeDec (a b : String) : Decidable (a ≤ b) :=
  decidable_of_iff (¬ b.toList < a.toList)
    (by rw [← String.lt_iff_toList_lt]; exact not_lt)

instance : DecidableRel keyLe := fun a b => strLeDec a.1 b.1

instance : IsTotal (String × Val) keyLe := ⟨fun a b => le_total a.1 b.1⟩

instance : IsTrans (String × Val) keyLe := ⟨fun _ _ _ h1 h2 => le_trans h1 h2⟩

/-- Sorting of the items of a dictionary by key, as dict(sorted(d.items())).
Python uses a stable sort and dictionary keys are unique, so an insertion
sort by key produces the same list. -/
def sortDict (d : List (String × Val)) : List (String × Val) :=
  List.insertionSort keyLe d

/-- Entries of the field mapping table given to transform: a destination
field name, a transformation function returning a dictionary to merge, or
any other Python value (which the code rejects). -/
inductive MapEntry where
  | str (name : String)
  | callable (f : Val → List (String × Val))
  | other

/-- Initial output document of transform, before the mapping loop. -/
def initDoc : List (String × Val) :=
  [("@context", Val.s "http://schema.org/"), ("@type", Val.s "Dataset")]

/-- One iteration of the mapping loop of transform, for one key/value pair
of the source record: keys absent from the table are skipped, a string entry
assigns the value under the destination name, a callable entry merges the
returned dictionary, and any other entry raises RuntimeError. -/
def transformStep (m : List (String × MapEntry)) (acc : List (String × Val))
    (kv : String × Val) : Except PyError (List (String × Val)) :=
  match m.lookup kv.1 with
  | none => Except.ok acc
  | some (MapEntry.str name) => Except.ok (dictSet acc name kv.2)
  | some (MapEntry.callable f) => Except.ok (dictUpdate acc (f kv.2))
  | some MapEntry.other => Except.error PyError.runtimeError

/-- The transform function: fold the mapping loop over the record items and
return the resulting document with its items sorted by key. -/
def transform (doc : List (String × Val)) (m : List (String × MapEntry)) :
    Except PyError (List (String × Val)) :=
  (doc.foldlM (transformStep m) initDoc).map sortDict

/-- Identifier computation of pmid_to_funding for the two-segment case: the
first segment is re-split on the slash from the right with at most one
split; when that yields two parts whose last part has exactly two characters
and satisfies isupper, the trailing three characters are removed from the
first segment, otherwise the first segment is kept whole. -/
def grantIdentifier (first : String) : String :=
  let subsegments := pyRsplit first '/' 1
  let lastSub := subsegments.getLastD ""
  if subsegments.length = 2 ∧ lastSub.length = 2 ∧ pyIsUpper lastSub = true
  then pyDropRight first 3
  else first

/-- Funding dictionary built for one grant string: a funder object carrying
the organization name, and an identifier key added only when the identifier
value is truthy, that is neither None nor the empty string. -/
def mkFundingDoc (organization : String) (identifier : Option String) :
    List (String × Val) :=
  ("funder", Val.obj [("@type", Val.s "Organization"), ("name", Val.s organization)]) ::
    (match identifier with
     | some s => if s = "" then [] else [("identifier", Val.s s)]
     | none => [])

/-- The grant-string loop of pmid_to_funding.  Each grant string is rsplit
on the slash with at most two splits and the last segment (the country) is
dropped.  Exactly one remaining segment assigns the organization with no
identifier; exactly two remaining segments assign the organization and the
computed identifier.  Any other number of segments leaves the two local
variables untouched, so the loop reuses the values of the previous
iteration, and raises an unbound-local error when there is no previous
iteration; this second argument carries those locals. -/
def fundingLoop : List String → Option (String × Option String) →
    Except PyError (List (List (String × Val)))
  | [], _ => Except.ok []
  | g :: gs, st =>
    let segments := (pyRsplit g '/' 2).dropLast
    let vars : Option (String × Option String) :=
      match segments with
      | [org] => some (org, none)
      | [first, org] => some (org, some (grantIdentifier first))
      | _ => st
    match vars with
    | none => Except.error PyError.nameError
    | some (org, idf) =>
      match fundingLoop gs (some (org, idf)) with
      | Except.error e => Except.error e
      | Except.ok rest => Except.ok (mkFundingDoc org idf :: rest)

/-- One heading section of the scraped PubMed page: the rendered markup of
the h4 element and the texts of the links in its immediately following
sibling list. -/
structure HtmlSection where
  markup : String
  links : List String

/-- Selection of the grant strings in pmid_to_funding: the loop starts from
an empty list and replaces it with the links of every section whose markup
contains the text Grant support, so the last matching section wins and no
match leaves the list empty. -/
def selectGrants (sections : List HtmlSection) : List String :=
  sections.foldl
    (fun grants sec => if pyContains sec.markup "Grant support" then sec.links else grants)
    []

/-- The pure part of pmid_to_funding, starting from the scraped heading
sections. -/
def pmidToFundingPure (sections : List HtmlSection) :
    Except PyError (List (List (String × Val))) :=
  fundingLoop (selectGrants sections) none

/-- Parsed XML elements as produced by xml.etree: a tag, an optional text,
and a list of child elements. -/
inductive XmlNode where
  | elem (tag : String) (text : Option String) (children : List XmlNode)

/-- Tag of an element. -/
def XmlNode.tag : XmlNode → String
  | .elem t _ _ => t

/-- Text of an element; None when the element has no text. -/
def XmlNode.text : XmlNode → Option String
  | .elem _ tx _ => tx

/-- Children of an element. -/
def XmlNode.children : XmlNode → List XmlNode
  | .elem _ _ cs => cs

/-- All elements with the given tag in the forest, in document order: each
root of the forest first, then its subtree, then the rest of the forest. -/
def collectTagList (tag : String) : List XmlNode → List XmlNode
  | [] => []
  | XmlNode.elem t tx cs :: rest =>
      (if t = tag then [XmlNode.elem t tx cs] else []) ++
        (collectTagList tag cs ++ collectTagList tag rest)

/-- The findall method for a descendant path .//tag: every element with the
tag strictly below the root, in document order. -/
def findallDesc (tag : String) (n : XmlNode) : List XmlNode :=
  collectTagList tag n.children

/-- The find method for a plain tag: the first direct child with that tag. -/
def findChild (n : XmlNode) (tag : String) : Option XmlNode :=
  n.children.find? (fun c => c.tag == tag)

/-- Value stored for an element text: the text string, or None when the
element has no text. -/
def valOfText : Option String → Val
  | some s => Val.s s
  | none => Val.n

/-- Grant dictionary built by pmid_with_eutils for one Grant element: a
funder object from the Agency child when present, and an identifier from
the GrantID child when present. -/
def grantDictOf (g : XmlNode) : List (String × Val) :=
  (match findChild g "Agency" with
   | some a => [("funder", Val.obj [("@type", Val.s "Organization"), ("name", valOfText a.text)])]
   | none => []) ++
  (match findChild g "GrantID" with
   | some gid => [("identifier", valOfText gid.text)]
   | none => [])

/-- Grant list of pmid_with_eutils: the loop appends the dictionary of each
Grant element, skipping empty dictionaries. -/
def grantsOf (root : XmlNode) : List (List (String × Val)) :=
  (findallDesc "Grant" root).foldl
    (fun acc g =>
      let grant := grantDictOf g
      if grant.isEmpty then acc else acc ++ [grant])
    []

/-- Modelled from the wording of the specification, for comparison with the
code: for each Grant element build an entry with the funder name from the
Agency child text (omitted if absent) and the identifier from the GrantID
child text (omitted if absent), and include the entry only if it has at
least one of the two fields. -/
def specGrantEntry (g : XmlNode) : Option (List (String × Val)) :=
  match findChild g "Agency", findChild g "GrantID" with
  | none, none => none
  | a, gid =>
      some
        ((match a with
          | some el =>
            [("funder", Val.obj [("@type", Val.s "Organization"), ("name", valOfText el.text)])]
          | none => []) ++
         (match gid with
          | some el => [("identifier", valOfText el.text)]
          | none => []))

/-- Grant list as the specification words it: one candidate entry per Grant
element in document order, kept when it has at least one field. -/
def specGrants (root : XmlNode) : List (List (String × Val)) :=
  (findallDesc "Grant" root).filterMap specGrantEntry

/-- Author names collected by pmid_with_eutils: for each Author element the
texts of its LastName and Initials children joined by a space.  Reading
.text on a missing child raises AttributeError, exactly as the Python
attribute access on None does. -/
def authorNamesList : List XmlNode → Except PyError (List String)
  | [] => Except.ok []
  | a :: rest =>
    match findChild a "LastName", findChild a "Initials" with
    | some ln, some ini =>
      match authorNamesList rest with
      | Except.error e => Except.error e
      | Except.ok tl => Except.ok ((pyStr ln.text ++ " " ++ pyStr ini.text) :: tl)
    | _, _ => Except.error PyError.attributeError

/-- Author segment of the citation, as the chain of branches in the code:
more than four authors take the first four joined by a comma and the et al
marker, more than one author joins all of them, exactly one author is used
alone, and no author contributes nothing. -/
def authorSegmentOf (authors : List String) : String :=
  if authors.length > 4 then joinSep ", " (authors.take 4) ++ " et al. "
  else if authors.length > 1 then joinSep ", " authors ++ ". "
  else if authors.length = 1 then authors.headD "" ++ ". "
  else ""

/-- Modelled from the wording of the specification, for comparison with the
code: zero authors give an empty segment, one author gives the name with a
trailing period, two to four authors join all names, and more than four
authors join the first four followed by the et al marker. -/
def specAuthorSegment (authors : List String) : String :=
  if authors.length = 0 then ""
  else if authors.length = 1 then authors.headD "" ++ ". "
  else if authors.length ≤ 4 then joinSep ", " authors ++ ". "
  else joinSep ", " (authors.take 4) ++ " et al. "

/-- Fixed feature paths and templates of the citation tail, each template
given as the text before and after the interpolated element text. -/
def featureList : List (List String × String × String) :=
  [ (["MedlineCitation", "Article", "ArticleTitle"], "", " "),
    (["MedlineCitation", "MedlineJournalInfo", "MedlineTA"], "", " "),
    (["MedlineCitation", "Article", "Journal", "JournalIssue", "PubDate", "Year"], "", " "),
    (["MedlineCitation", "Article", "Journal", "JournalIssue", "PubDate", "Month"], "", ";"),
    (["MedlineCitation", "Article", "Journal", "JournalIssue", "Volume"], "", ""),
    (["MedlineCitation", "Article", "Journal", "JournalIssue", "Issue"], "(", ")"),
    (["MedlineCitation", "Article", "Pagination", "MedlinePgn"], ":", "") ]

/-- Successive child steps of a path: each tag selects, for every element
found so far in order, its children with that tag. -/
def pathMatches : List XmlNode → List String → List XmlNode
  | ns, [] => ns
  | ns, s :: rest =>
    pathMatches ((ns.map (fun n => n.children.filter (fun c => c.tag == s))).flatten) rest

/-- The find method for a descendant path: the first tag is searched among
all strict descendants, the remaining tags select children, and the first
match in that order is returned. -/
def findPathDesc (root : XmlNode) (segs : List String) : Option XmlNode :=
  match segs with
  | [] => none
  | s1 :: rest => (pathMatches (findallDesc s1 root) rest).head?

/-- Citation tail of pmid_with_eutils: each feature found in the document
appends its formatted text, an absent feature is skipped. -/
def featuresString (root : XmlNode) : String :=
  featureList.foldl
    (fun acc f =>
      match findPathDesc root f.1 with
      | some el => acc ++ f.2.1 ++ pyStr el.text ++ f.2.2
      | none => acc)
    ""

/-- The pure part of pmid_with_eutils after the root assertion: the grant
list and the citation string assembled from the author segment and the
feature tail. -/
def eutilsExtract (root : XmlNode) : Except PyError (List (List (String × Val)) × String) :=
  let grants := grantsOf root
  match authorNamesList (findallDesc "Author" root) with
  | Except.error e => Except.error e
  | Except.ok names => Except.ok (grants, authorSegmentOf names ++ featuresString root)

/-- The pmid_with_eutils function from the outcome of the XML collaborator:
fromstring either returns the root element or raises ParseError (on a
malformed body as well as on an empty body with no root), modelled by the
optional argument; then assert root raises AssertionError when the root
element is falsy, which for elements means childless. -/
def pmidWithEutils (parsed : Option XmlNode) :
    Except PyError (List (List (String × Val)) × String) :=
  match parsed with
  | none => Except.error PyError.parseError
  | some root =>
    if root.children.isEmpty then Except.error PyError.assertionError
    else eutilsExtract root

/-- Modelled from the wording of the specification, for comparison with the
code: the step-five identifier rule of the HTML funding extractor.  The
first segment is re-split on the slash from the right with at most one
split; if that yields two parts whose last part is exactly two characters
and entirely uppercase, the trailing three characters are stripped from the
first segment, otherwise the identifier is the whole first segment. -/
def specStep5Identifier (first : String) : String :=
  match pyRsplit first '/' 1 with
  | [_, ab] => if ab.length = 2 ∧ pyIsUpper ab = true then pyDropRight first 3 else first
  | _ => first

/-- Keys of the record that the mapping table recognizes, in record order. -/
def recognizedKeys (doc : List (String × Val)) (m : List (String × MapEntry)) : List String :=
  (doc.filter (fun kv => (m.lookup kv.1).isSome)).map Prod.fst

/-- Validity of a mapping table: every entry is a string or a callable. -/
def validTable (m : List (String × MapEntry)) : Prop :=
  ∀ e ∈ m, e.2 ≠ MapEntry.other

/-- Output keys that one recognized record pair contributes: the destination
name of a string entry, or the keys of the dictionary returned by a callable
entry. -/
def producedOf (m : List (String × MapEntry)) (kv : String × Val) : List String :=
  match m.lookup kv.1 with
  | some (MapEntry.str name) => [name]
  | some (MapEntry.callable f) => (f kv.2).map Prod.fst
  | _ => []

/-- Formal reading of the claim that the output of transform consists of
exactly the two constant pairs plus one entry per recognized source key. -/
def claimC5Holds (doc : List (String × Val)) (m : List (String × MapEntry)) : Prop :=
  ∀ out, transform doc m = Except.ok out →
    out.length = 2 + (recognizedKeys doc m).length ∧
    ("@context", Val.s "http://schema.org/") ∈ out ∧
    ("@type", Val.s "Dataset") ∈ out

/-- Sample parsed XML record with two well-formed Author elements, used as
a concrete instance of the citation claims. -/
def sampleAuthorsRoot : XmlNode :=
  XmlNode.elem "PubmedArticleSet" none
    [XmlNode.elem "Author" none
      [XmlNode.elem "LastName" (some "Doe") [], XmlNode.elem "Initials" (some "J") []],
     XmlNode.elem "Author" none
      [XmlNode.elem "LastName" (some "Roe") [], XmlNode.elem "Initials" (some "K") []]]

/-! Helper lemmas. -/

/-- A successful lookup result is a pair of the association list. -/
theorem lookup_mem {β : Type} :
    ∀ (l : List (String × β)) (k : String) (v : β), l.lookup k = some v → (k, v) ∈ l := by
  intro l k v h
  induction l with
  | nil => simp [List.lookup] at h
  | cons kv rest ih =>
    obtain ⟨k1, v1⟩ := kv
    rw [List.lookup] at h
    by_cases hk : k == k1
    · simp only [hk, cond_true] at h
      have hkk : k = k1 := beq_iff_eq.mp hk
      cases h
      exact List.mem_cons.mpr (Or.inl (by rw [hkk]))
    · rw [Bool.not_eq_true] at hk
      rw [hk] at h
      exact List.mem_cons.mpr (Or.inr (ih h))

/-- The identifier entry of a funding dictionary, when present, holds a
nonempty string. -/
theorem mkFundingDoc_identifier_nonempty :
    ∀ (org : String) (idf : Option String) (v : Val),
      (mkFundingDoc org idf).lookup "identifier" = some v → ∃ s, v = Val.s s ∧ s ≠ "" := by
  intro org idf v h
  cases idf with
  | none => simp [mkFundingDoc, List.lookup] at h
  | some s =>
    by_cases hs : s = ""
    · subst hs; simp [mkFundingDoc, List.lookup] at h
    · rw [mkFundingDoc, if_neg hs] at h
      simp [List.lookup] at h
      exact ⟨s, h.symm, hs⟩

/-- Every entry produced by the grant-string loop satisfies the identifier
property. -/
theorem fundingLoop_entries :
    ∀ (grants : List String) (st : Option (String × Option String)) entries,
      fundingLoop grants st = Except.ok entries →
      ∀ e ∈ entries, ∃ org idf, e = mkFundingDoc org idf := by
  intro grants
  induction grants with
  | nil =>
    intro st entries h e he
    rw [fundingLoop] at h
    cases h
    simp at he
  | cons g gs ih =>
    intro st entries h e he
    rw [fundingLoop] at h
    set vars := (match (pyRsplit g '/' 2).dropLast with
      | [org] => some (org, none)
      | [first, org] => some (org, some (grantIdentifier first))
      | _ => st) with hv
    clear_value vars
    match vars with
    | none => cases h
    | some (org, idf) =>
      simp only at h
      cases hrec : fundingLoop gs (some (org, idf)) with
      | error e' => rw [hrec] at h; cases h
      | ok rest =>
        rw [hrec] at h
        cases h
        rcases List.mem_cons.mp he with h1 | h2
        · exact ⟨org, idf, h1⟩
        · exact ih (some (org, idf)) rest hrec e h2

/-! Claim theorems. -/

/-- C1: parsing the grant string from the example yields the organization
NCRR NIH HHS with a trailing space, verbatim with only the country removed,
and the identifier of the two-segment branch is computed by the step-five
rule of the specification: the first segment re-split on the slash from the
right with at most one split, the trailing three characters stripped exactly
when that re-split yields two parts whose last part is two characters long
and uppercase, the whole first segment otherwise. -/
theorem grant_string_parse_example :
    fundingLoop ["M01 RR000051-475611 /RR /NCRR NIH HHS /United States"] none =
      Except.ok [[("funder", Val.obj [("@type", Val.s "Organization"),
        ("name", Val.s "NCRR NIH HHS ")]),
        ("identifier", Val.s "M01 RR000051-475611 /RR ")]] ∧
    (∀ first : String, grantIdentifier first = specStep5Identifier first) := by
  constructor
  · rfl
  · intro first
    simp only [grantIdentifier, specStep5Identifier]
    rcases h : pyRsplit first '/' 1 with _ | ⟨a, _ | ⟨b, _ | ⟨c, t⟩⟩⟩ <;>
      simp [List.getLastD]

/-- C9: a grant string with no slash leaves zero segments after country
removal, so neither branch assigns the locals: as the first grant string it
raises an unbound-local error, and after a previous grant string it silently
reuses the previous organization and identifier, duplicating the previous
entry. -/
theorem grant_parser_not_total :
    fundingLoop ["M01 RR000051"] none = Except.error PyError.nameError ∧
    fundingLoop ["A /B /C", "M01 RR000051"] none =
      Except.ok [[("funder", Val.obj [("@type", Val.s "Organization"), ("name", Val.s "B ")]),
        ("identifier", Val.s "A ")],
        [("funder", Val.obj [("@type", Val.s "Organization"), ("name", Val.s "B ")]),
        ("identifier", Val.s "A ")]] :=
  ⟨rfl, rfl⟩

/-- C10: the identifier key of a funding entry is present only when the
parsed identifier is truthy, so an identifier parsing to the empty string is
omitted exactly as a None identifier is, and a present identifier key always
holds a nonempty string. -/
theorem identifier_truthiness :
    (∀ (grants : List String) (st : Option (String × Option String)) entries,
        fundingLoop grants st = Except.ok entries →
        ∀ e ∈ entries, ∀ v, e.lookup "identifier" = some v → ∃ s, v = Val.s s ∧ s ≠ "") ∧
    (∀ org, mkFundingDoc org (some "") = mkFundingDoc org none) := by
  constructor
  · intro grants st entries h e he v hv
    obtain ⟨org, idf, rfl⟩ := fundingLoop_entries grants st entries h e he
    exact mkFundingDoc_identifier_nonempty org idf v hv
  · intro org
    rfl

/-- Closed instance of the identifier truthiness theorem at a concrete grant
list. -/
theorem identifier_truthiness_witness :
    ∃ s, Val.s "A " = Val.s s ∧ s ≠ "" :=
  identifier_truthiness.1 ["A /B /C"] none
    [[("funder", Val.obj [("@type", Val.s "Organization"), ("name", Val.s "B ")]),
      ("identifier", Val.s "A ")]] rfl
    [("funder", Val.obj [("@type", Val.s "Organization"), ("name", Val.s "B ")]),
      ("identifier", Val.s "A ")] (List.Mem.head _) (Val.s "A ") rfl

/-- Replacing the value of a key in place does not change the key list. -/
theorem keysOf_map_replace (d : List (String × Val)) (k : String) (v : Val) :
    keysOf (d.map (fun kv => if kv.1 == k then (k, v) else kv)) = keysOf d := by
  unfold keysOf
  rw [List.map_map]
  apply List.map_congr_left
  intro kv _
  by_cases hk : kv.1 == k
  · simp only [Function.comp_apply, if_pos hk]
    exact (beq_iff_eq.mp hk).symm
  · simp only [Function.comp_apply, if_neg hk]

/-- Keys after an assignment: every key comes from the dictionary or is the
assigned key. -/
theorem mem_keysOf_dictSet (d : List (String × Val)) (k : String) (v : Val) :
    ∀ x, x ∈ keysOf (dictSet d k v) → x ∈ keysOf d ∨ x = k := by
  intro x hx
  rw [dictSet] at hx
  by_cases hc : d.any (fun kv => kv.1 == k)
  · rw [if_pos hc, keysOf_map_replace] at hx
    exact Or.inl hx
  · rw [if_neg hc] at hx
    unfold keysOf at hx
    rw [List.map_append] at hx
    rcases List.mem_append.mp hx with h1 | h2
    · exact Or.inl h1
    · simp at h2
      exact Or.inr h2

/-- An assignment never removes keys. -/
theorem mem_keysOf_dictSet_of_mem (d : List (String × Val)) (k : String) (v : Val) :
    ∀ x, x ∈ keysOf d → x ∈ keysOf (dictSet d k v) := by
  intro x hx
  rw [dictSet]
  by_cases hc : d.any (fun kv => kv.1 == k)
  · rw [if_pos hc, keysOf_map_replace]
    exact hx
  · rw [if_neg hc]
    unfold keysOf at *
    rw [List.map_append]
    exact List.mem_append.mpr (Or.inl hx)

/-- A merge never removes keys. -/
theorem mem_keysOf_dictUpdate_of_mem :
    ∀ (l : List (String × Val)) (d : List (String × Val)) (x : String),
      x ∈ keysOf d → x ∈ keysOf (dictUpdate d l) := by
  intro l
  induction l with
  | nil => intro d x hx; exact hx
  | cons kv rest ih =>
    intro d x hx
    rw [dictUpdate, List.foldl_cons]
    exact ih (dictSet d kv.1 kv.2) x (mem_keysOf_dictSet_of_mem _ _ _ x hx)

/-- Keys after a merge: every key comes from the dictionary or from the
merged mapping. -/
theorem mem_keysOf_dictUpdate :
    ∀ (l : List (String × Val)) (d : List (String × Val)) (x : String),
      x ∈ keysOf (dictUpdate d l) → x ∈ keysOf d ∨ x ∈ l.map Prod.fst := by
  intro l
  induction l with
  | nil => intro d x hx; exact Or.inl hx
  | cons kv rest ih =>
    intro d x hx
    rw [dictUpdate, List.foldl_cons] at hx
    rcases ih (dictSet d kv.1 kv.2) x hx with h1 | h2
    · rcases mem_keysOf_dictSet _ _ _ x h1 with ha | hb
      · exact Or.inl ha
      · exact Or.inr (by simp [hb])
    · exact Or.inr (by simp [h2])

/-- The mapping fold of transform on a valid table always succeeds, keeps
every key of the accumulator, and only adds keys produced by recognized
record pairs. -/
theorem transform_fold_keys :
    ∀ (m : List (String × MapEntry)), validTable m →
    ∀ (doc : List (String × Val)) (acc : List (String × Val)),
      ∃ d, List.foldlM (transformStep m) acc doc = Except.ok d ∧
        (∀ x ∈ keysOf acc, x ∈ keysOf d) ∧
        (∀ x ∈ keysOf d, x ∈ keysOf acc ∨ ∃ kv ∈ doc, x ∈ producedOf m kv) := by
  intro m hm doc
  induction doc with
  | nil =>
    intro acc
    exact ⟨acc, rfl, fun x hx => hx, fun x hx => Or.inl hx⟩
  | cons kv rest ih =>
    intro acc
    cases hl : m.lookup kv.1 with
    | none =>
      obtain ⟨d, hd, hsup, hmem⟩ := ih acc
      refine ⟨d, ?_, hsup, ?_⟩
      · rw [List.foldlM_cons]
        have hstep : transformStep m acc kv = Except.ok acc := by rw [transformStep, hl]
        rw [hstep]
        exact hd
      · intro x hx
        rcases hmem x hx with h1 | ⟨kv2, hkv2, hp⟩
        · exact Or.inl h1
        · exact Or.inr ⟨kv2, List.mem_cons_of_mem _ hkv2, hp⟩
    | some e =>
      cases e with
      | str name =>
        obtain ⟨d, hd, hsup, hmem⟩ := ih (dictSet acc name kv.2)
        refine ⟨d, ?_, ?_, ?_⟩
        · rw [List.foldlM_cons]
          have hstep : transformStep m acc kv = Except.ok (dictSet acc name kv.2) := by
            rw [transformStep, hl]
          rw [hstep]
          exact hd
        · intro x hx
          exact hsup x (mem_keysOf_dictSet_of_mem _ _ _ x hx)
        · intro x hx
          rcases hmem x hx with h1 | ⟨kv2, hkv2, hp⟩
          · rcases mem_keysOf_dictSet _ _ _ x h1 with ha | hb
            · exact Or.inl ha
            · refine Or.inr ⟨kv, List.mem_cons_self kv rest, ?_⟩
              simp [producedOf, hl, hb]
          · exact Or.inr ⟨kv2, List.mem_cons_of_mem _ hkv2, hp⟩
      | callable f =>
        obtain ⟨d, hd, hsup, hmem⟩ := ih (dictUpdate acc (f kv.2))
        refine ⟨d, ?_, ?_, ?_⟩
        · rw [List.foldlM_cons]
          have hstep : transformStep m acc kv = Except.ok (dictUpdate acc (f kv.2)) := by
            rw [transformStep, hl]
          rw [hstep]
          exact hd
        · intro x hx
          exact hsup x (mem_keysOf_dictUpdate_of_mem _ _ x hx)
        · intro x hx
          rcases hmem x hx with h1 | ⟨kv2, hkv2, hp⟩
          · rcases mem_keysOf_dictUpdate _ _ x h1 with ha | hb
            · exact Or.inl ha
            · refine Or.inr ⟨kv, List.mem_cons_self kv rest, ?_⟩
              have hpp : producedOf m kv = (f kv.2).map Prod.fst := by
                simp [producedOf, hl]
              rw [hpp]
              exact hb
          · exact Or.inr ⟨kv2, List.mem_cons_of_mem _ hkv2, hp⟩
      | other =>
        exfalso
        exact hm (kv.1, MapEntry.other) (lookup_mem m kv.1 MapEntry.other hl) rfl

/-- The mapping fold raises RuntimeError as soon as the record holds a key
whose table entry is neither a string nor a callable. -/
theorem transform_fold_error :
    ∀ (m : List (String × MapEntry)) (doc : List (String × Val)) (acc : List (String × Val)),
      (∃ kv ∈ doc, m.lookup kv.1 = some MapEntry.other) →
      List.foldlM (transformStep m) acc doc = Except.error PyError.runtimeError := by
  intro m doc
  induction doc with
  | nil =>
    intro acc h
    rcases h with ⟨kv, hkv, _⟩
    simp at hkv
  | cons kv0 rest ih =>
    intro acc h
    rw [List.foldlM_cons]
    rcases h with ⟨kv, hkv, hbad⟩
    cases hl : m.lookup kv0.1 with
    | none =>
      have hstep : transformStep m acc kv0 = Except.ok acc := by rw [transformStep, hl]
      rw [hstep]
      rcases List.mem_cons.mp hkv with h1 | h2
      · subst h1; rw [hl] at hbad; cases hbad
      · exact ih acc ⟨kv, h2, hbad⟩
    | some e =>
      cases e with
      | str name =>
        have hstep : transformStep m acc kv0 = Except.ok (dictSet acc name kv0.2) := by
          rw [transformStep, hl]
        rw [hstep]
        rcases List.mem_cons.mp hkv with h1 | h2
        · subst h1; rw [hl] at hbad; cases hbad
        · exact ih (dictSet acc name kv0.2) ⟨kv, h2, hbad⟩
      | callable f =>
        have hstep : transformStep m acc kv0 = Except.ok (dictUpdate acc (f kv0.2)) := by
          rw [transformStep, hl]
        rw [hstep]
        rcases List.mem_cons.mp hkv with h1 | h2
        · subst h1; rw [hl] at hbad; cases hbad
        · exact ih (dictUpdate acc (f kv0.2)) ⟨kv, h2, hbad⟩
      | other =>
        have hstep : transformStep m acc kv0 = Except.error PyError.runtimeError := by
          rw [transformStep, hl]
        rw [hstep]
        rfl

/-- C2: for every record and every mapping table holding, for some key of
the record, an entry that is neither a string nor a callable, transform
fails with the invalid-mapping error (the RuntimeError of the code, the kind
the specification names ConfigurationError). -/
theorem transform_invalid_mapping_errors :
    ∀ (doc : List (String × Val)) (m : List (String × MapEntry)),
      (∃ kv ∈ doc, m.lookup kv.1 = some MapEntry.other) →
      transform doc m = Except.error PyError.runtimeError := by
  intro doc m h
  rw [transform, transform_fold_error m doc initDoc h]
  rfl

/-- Closed instance of the invalid-mapping theorem at a concrete record and
table. -/
theorem transform_invalid_mapping_errors_witness :
    transform [("a", Val.n)] [("a", MapEntry.other)] = Except.error PyError.runtimeError :=
  transform_invalid_mapping_errors [("a", Val.n)] [("a", MapEntry.other)]
    ⟨("a", Val.n), List.Mem.head _, rfl⟩

/-- C8: the keys of every mapping returned by transform are in ascending
sort order. -/
theorem transform_keys_sorted :
    ∀ (doc : List (String × Val)) (m : List (String × MapEntry)) (out : List (String × Val)),
      transform doc m = Except.ok out → List.Sorted (· ≤ ·) (keysOf out) := by
  intro doc m out h
  rw [transform] at h
  cases hf : List.foldlM (transformStep m) initDoc doc with
  | error e => rw [hf] at h; cases h
  | ok d =>
    rw [hf] at h
    simp only [Except.map] at h
    cases h
    exact List.Pairwise.map Prod.fst (fun a b hab => hab) (List.sorted_insertionSort keyLe d)

/-- Closed instance of the sorted-keys theorem at a concrete record and
table. -/
theorem transform_keys_sorted_witness :
    List.Sorted (· ≤ ·) (keysOf initDoc) :=
  transform_keys_sorted [] [] initDoc rfl

/-- Sorting the dictionary permutes its entries, so key membership is
unchanged. -/
theorem mem_keysOf_sortDict (d : List (String × Val)) (x : String) :
    x ∈ keysOf (sortDict d) ↔ x ∈ keysOf d := by
  unfold keysOf sortDict
  exact ((List.perm_insertionSort keyLe d).map Prod.fst).mem_iff

/-- C5 counterexample: for the record with the single key a and the table
mapping a to the destination name that collides with the constant, the
output of transform has two keys while one source key is recognized, and
the constant pair for the type key is overwritten, so the output is not the
two constant pairs plus one entry per recognized source key. -/
theorem transform_output_keys_cex :
    ¬ claimC5Holds [("a", Val.s "overwritten")] [("a", MapEntry.str "@type")] := by
  intro h
  have h2 := h [("@context", Val.s "http://schema.org/"), ("@type", Val.s "overwritten")] rfl
  rcases h2 with ⟨hlen, hctx, htyp⟩
  simp at htyp

/-- C5 amended: for the empty record the output of transform is exactly the
two constant pairs; for every record and valid mapping table the call
succeeds, the output keys always include the context and type constants,
every unrecognized source key is dropped, and every further output key is
one produced by a recognized source key (the destination name of its string
entry, or a key of the dictionary returned by its callable entry, which may
contribute zero or several keys and may overwrite the constants). -/
theorem transform_output_keys_amended :
    (∀ m : List (String × MapEntry), transform [] m = Except.ok initDoc) ∧
    (∀ (doc : List (String × Val)) (m : List (String × MapEntry)), validTable m →
      ∃ out, transform doc m = Except.ok out ∧
        "@context" ∈ keysOf out ∧ "@type" ∈ keysOf out ∧
        ∀ k ∈ keysOf out, k = "@context" ∨ k = "@type" ∨
          ∃ kv ∈ doc, k ∈ producedOf m kv) := by
  constructor
  · intro m
    rfl
  · intro doc m hm
    obtain ⟨d, hd, hsup, hmem⟩ := transform_fold_keys m hm doc initDoc
    refine ⟨sortDict d, ?_, ?_, ?_, ?_⟩
    · rw [transform, hd]
      rfl
    · exact (mem_keysOf_sortDict d "@context").mpr
        (hsup "@context" (by simp [keysOf, initDoc]))
    · exact (mem_keysOf_sortDict d "@type").mpr
        (hsup "@type" (by simp [keysOf, initDoc]))
    · intro k hk
      rcases hmem k ((mem_keysOf_sortDict d k).mp hk) with h1 | h2
      · simp [keysOf, initDoc] at h1
        rcases h1 with h | h
        · exact Or.inl h
        · exact Or.inr (Or.inl h)
      · exact Or.inr (Or.inr h2)

/-- Closed instance of the amended key theorem at a concrete record and
table. -/
theorem transform_output_keys_amended_witness :
    ∃ out, transform [("a", Val.s "v")] [("a", MapEntry.str "name")] = Except.ok out ∧
      "@context" ∈ keysOf out ∧ "@type" ∈ keysOf out ∧
      ∀ k ∈ keysOf out, k = "@context" ∨ k = "@type" ∨
        ∃ kv ∈ [("a", Val.s "v")], k ∈ producedOf [("a", MapEntry.str "name")] kv :=
  transform_output_keys_amended.2 [("a", Val.s "v")] [("a", MapEntry.str "name")]
    (by
      intro e he
      rw [List.mem_singleton] at he
      subst he
      exact fun hc => MapEntry.noConfusion hc)

/-- Any error of the author-name loop is the AttributeError of a missing
child. -/
theorem authorNamesList_error_kind :
    ∀ (l : List XmlNode) (e : PyError),
      authorNamesList l = Except.error e → e = PyError.attributeError := by
  intro l
  induction l with
  | nil =>
    intro e h
    rw [authorNamesList] at h
    simp at h
  | cons a rest ih =>
    intro e h
    rw [authorNamesList] at h
    cases h1 : findChild a "LastName" with
    | none =>
      rw [h1] at h
      cases h2 : findChild a "Initials" <;> rw [h2] at h <;>
        exact (Except.error.inj h).symm
    | some ln =>
      rw [h1] at h
      cases h2 : findChild a "Initials" with
      | none =>
        rw [h2] at h
        exact (Except.error.inj h).symm
      | some ini =>
        rw [h2] at h
        cases h3 : authorNamesList rest with
        | error e2 =>
          rw [h3] at h
          rw [← Except.error.inj h]
          exact ih e2 h3
        | ok tl =>
          rw [h3] at h
          simp at h

/-- When some author element lacks a LastName or Initials child, the
author-name loop raises AttributeError. -/
theorem authorNamesList_error_of_missing :
    ∀ l : List XmlNode,
      (∃ a ∈ l, findChild a "LastName" = none ∨ findChild a "Initials" = none) →
      authorNamesList l = Except.error PyError.attributeError := by
  intro l
  induction l with
  | nil =>
    rintro ⟨a, ha, _⟩
    simp at ha
  | cons a rest ih =>
    rintro ⟨x, hx, hmiss⟩
    rw [authorNamesList]
    cases h1 : findChild a "LastName" with
    | none => cases h2 : findChild a "Initials" <;> rfl
    | some ln =>
      cases h2 : findChild a "Initials" with
      | none => rfl
      | some ini =>
        rcases List.mem_cons.mp hx with rfl | hx2
        · rcases hmiss with hm | hm
          · rw [h1] at hm
            cases hm
          · rw [h2] at hm
            cases hm
        · rw [ih ⟨x, hx2, hmiss⟩]

/-- Any error of the XML extractor is the AttributeError of the author
loop. -/
theorem eutilsExtract_error_kind :
    ∀ (root : XmlNode) (e : PyError),
      eutilsExtract root = Except.error e → e = PyError.attributeError := by
  intro root e h
  simp only [eutilsExtract] at h
  cases h3 : authorNamesList (findallDesc "Author" root) with
  | error e2 =>
    rw [h3] at h
    rw [← Except.error.inj h]
    exact authorNamesList_error_kind _ e2 h3
  | ok names =>
    rw [h3] at h
    simp at h

/-- C4: the XML extractor fails with ParseError exactly when the parsing
collaborator yields no document, that is when the body is malformed or
empty with no root element; in every other situation its failure, if any,
is of a different kind. -/
theorem eutils_parse_error_iff :
    ∀ parsed : Option XmlNode,
      (parsed = none → pmidWithEutils parsed = Except.error PyError.parseError) ∧
      (pmidWithEutils parsed = Except.error PyError.parseError → parsed = none) := by
  intro parsed
  constructor
  · intro h
    subst h
    rfl
  · intro h
    cases parsed with
    | none => rfl
    | some root =>
      exfalso
      rw [pmidWithEutils] at h
      by_cases hc : root.children.isEmpty
      · rw [if_pos hc] at h
        exact PyError.noConfusion (Except.error.inj h)
      · rw [if_neg hc] at h
        exact PyError.noConfusion (eutilsExtract_error_kind root PyError.parseError h)

/-- Closed instance of the ParseError theorem at the failed-parse input. -/
theorem eutils_parse_error_iff_witness :
    pmidWithEutils none = Except.error PyError.parseError :=
  (eutils_parse_error_iff none).1 rfl

/-- With no matching heading the grant-string list of pmid_to_funding stays
empty. -/
theorem selectGrants_no_match :
    ∀ sections : List HtmlSection,
      (∀ sec ∈ sections, pyContains sec.markup "Grant support" = false) →
      selectGrants sections = [] := by
  intro sections
  induction sections with
  | nil => intro _; rfl
  | cons sec rest ih =>
    intro h
    unfold selectGrants at *
    rw [List.foldl_cons, h sec (List.mem_cons_self _ _), if_neg Bool.false_ne_true]
    exact ih (fun s hs => h s (List.mem_cons_of_mem _ hs))

/-- C3 counterexample: an Author element lacking a LastName child makes the
XML extractor raise AttributeError instead of degrading to an omitted
value. -/
theorem author_missing_child_raises :
    eutilsExtract (XmlNode.elem "PubmedArticleSet" none
      [XmlNode.elem "Author" none [XmlNode.elem "Initials" (some "J") []]]) =
      Except.error PyError.attributeError := by
  simp [eutilsExtract, findallDesc, collectTagList, XmlNode.children, authorNamesList,
    findChild, XmlNode.tag, grantsOf]

/-- C3 amended: the heading and Grant cases degrade without error, but the
author case does not.  With no heading containing the text Grant support,
pmid_to_funding returns the empty list; a Grant element lacking the Agency
child yields no funder key and one lacking the GrantID child yields no
identifier key, a Grant lacking both is dropped entirely; however an Author
element lacking a LastName or Initials child makes pmid_with_eutils fail
with AttributeError rather than degrade. -/
theorem optional_structure_amended :
    (∀ sections : List HtmlSection,
        (∀ sec ∈ sections, pyContains sec.markup "Grant support" = false) →
        pmidToFundingPure sections = Except.ok []) ∧
    (∀ g : XmlNode, findChild g "Agency" = none → "funder" ∉ keysOf (grantDictOf g)) ∧
    (∀ g : XmlNode, findChild g "GrantID" = none → "identifier" ∉ keysOf (grantDictOf g)) ∧
    (∀ g : XmlNode, findChild g "Agency" = none → findChild g "GrantID" = none →
        grantDictOf g = []) ∧
    (∀ root : XmlNode,
        (∃ a ∈ findallDesc "Author" root,
          findChild a "LastName" = none ∨ findChild a "Initials" = none) →
        eutilsExtract root = Except.error PyError.attributeError) := by
  refine ⟨?_, ?_, ?_, ?_, ?_⟩
  · intro sections h
    rw [pmidToFundingPure, selectGrants_no_match sections h]
    rfl
  · intro g h1
    rw [grantDictOf, h1]
    cases h2 : findChild g "GrantID" <;> simp [keysOf]
  · intro g h2
    rw [grantDictOf, h2]
    cases h1 : findChild g "Agency" <;> simp [keysOf]
  · intro g h1 h2
    rw [grantDictOf, h1, h2]
    rfl
  · intro root hmiss
    simp only [eutilsExtract]
    rw [authorNamesList_error_of_missing _ hmiss]

/-- Closed instance of the amended optional-structure theorem at concrete
inputs. -/
theorem optional_structure_amended_witness :
    pmidToFundingPure [⟨"<h4>MeSH terms</h4>", ["X /Y /Z"]⟩] = Except.ok [] ∧
    eutilsExtract (XmlNode.elem "R" none [XmlNode.elem "Author" none []]) =
      Except.error PyError.attributeError :=
  ⟨optional_structure_amended.1 [⟨"<h4>MeSH terms</h4>", ["X /Y /Z"]⟩]
      (by
        intro sec hs
        rw [List.mem_singleton] at hs
        subst hs
        rfl),
   optional_structure_amended.2.2.2.2 (XmlNode.elem "R" none [XmlNode.elem "Author" none []])
      ⟨XmlNode.elem "Author" none [],
        by simp [findallDesc, collectTagList, XmlNode.children],
        Or.inl rfl⟩⟩

/-- The branch chain of the code computes the same author segment as the
case analysis of the specification. -/
theorem authorSegment_eq_spec :
    ∀ authors : List String, authorSegmentOf authors = specAuthorSegment authors := by
  intro authors
  rw [authorSegmentOf, specAuthorSegment]
  rcases authors with _ | ⟨a, _ | ⟨b, t⟩⟩
  · rfl
  · rfl
  · simp only [List.length_cons]
    split_ifs <;> first | rfl | omega | trivial

/-- C6: the author segment of the citation built by pmid_with_eutils
follows the specification cases for the list of LastName Initials names in
document order: empty for zero authors, the name and a period for one, all
names joined by a comma for two to four, and the first four names joined
followed by the et al marker for more than four; the citation is that
segment followed by the feature tail. -/
theorem author_segment_spec :
    (∀ authors : List String, authorSegmentOf authors = specAuthorSegment authors) ∧
    (∀ (root : XmlNode) (names : List String) (out : List (List (String × Val)) × String),
        authorNamesList (findallDesc "Author" root) = Except.ok names →
        eutilsExtract root = Except.ok out →
        out.2 = specAuthorSegment names ++ featuresString root) := by
  constructor
  · exact authorSegment_eq_spec
  · intro root names out ha he
    simp only [eutilsExtract] at he
    rw [ha] at he
    rw [← Except.ok.inj he]
    rw [authorSegment_eq_spec]

/-- On any record whose author names resolve, the extractor returns the
grants and the assembled citation. -/
theorem eutilsExtract_ok (root : XmlNode) (names : List String)
    (h : authorNamesList (findallDesc "Author" root) = Except.ok names) :
    eutilsExtract root =
      Except.ok (grantsOf root, authorSegmentOf names ++ featuresString root) := by
  simp only [eutilsExtract]
  rw [h]

/-- Closed instance of the author-segment theorem at a concrete record with
two authors. -/
theorem author_segment_spec_witness :
    (grantsOf sampleAuthorsRoot,
      authorSegmentOf ["Doe J", "Roe K"] ++ featuresString sampleAuthorsRoot).2 =
      specAuthorSegment ["Doe J", "Roe K"] ++ featuresString sampleAuthorsRoot := by
  have hna : authorNamesList (findallDesc "Author" sampleAuthorsRoot) =
      Except.ok ["Doe J", "Roe K"] := by
    have hfa : findallDesc "Author" sampleAuthorsRoot =
        [XmlNode.elem "Author" none
          [XmlNode.elem "LastName" (some "Doe") [], XmlNode.elem "Initials" (some "J") []],
         XmlNode.elem "Author" none
          [XmlNode.elem "LastName" (some "Roe") [], XmlNode.elem "Initials" (some "K") []]] := by
      simp [sampleAuthorsRoot, findallDesc, collectTagList, XmlNode.children]
    rw [hfa]
    rfl
  exact author_segment_spec.2 sampleAuthorsRoot ["Doe J", "Roe K"]
    (grantsOf sampleAuthorsRoot,
      authorSegmentOf ["Doe J", "Roe K"] ++ featuresString sampleAuthorsRoot)
    hna (eutilsExtract_ok sampleAuthorsRoot ["Doe J", "Roe K"] hna)

/-- The per-element entry of the specification agrees with the per-element
dictionary of the code, empty exactly when both children are absent. -/
theorem specGrantEntry_eq (g : XmlNode) :
    specGrantEntry g = if (grantDictOf g).isEmpty then none else some (grantDictOf g) := by
  rw [specGrantEntry, grantDictOf]
  cases h1 : findChild g "Agency" <;> cases h2 : findChild g "GrantID" <;> simp

/-- The appending fold of the grant loop equals the filtered map of the
specification entries. -/
theorem grantsOf_foldl :
    ∀ (l : List XmlNode) (acc : List (List (String × Val))),
      List.foldl (fun acc g =>
        let grant := grantDictOf g
        if grant.isEmpty then acc else acc ++ [grant]) acc l =
      acc ++ l.filterMap specGrantEntry := by
  intro l
  induction l with
  | nil =>
    intro acc
    simp
  | cons g rest ih =>
    intro acc
    rw [List.foldl_cons, List.filterMap_cons, specGrantEntry_eq g]
    by_cases hg : (grantDictOf g).isEmpty = true
    · simp only [hg, if_true]
      rw [ih acc]
    · have hg2 : (grantDictOf g).isEmpty = false := by
        rw [← Bool.not_eq_true]
        exact hg
      simp only [hg2, if_false, Bool.false_eq_true]
      rw [ih (acc ++ [grantDictOf g])]
      simp

/-- C7: pmid_with_eutils builds one grant entry per Grant element in
document order, the funder name from the Agency child text and the
identifier from the GrantID child text, each key omitted when its child is
absent, the entry kept only when it has at least one field; in particular
one Grant with Agency NIH and no GrantID yields exactly the singleton
funder entry with no identifier key. -/
theorem grants_extraction_spec :
    (∀ root : XmlNode, grantsOf root = specGrants root) ∧
    grantsOf (XmlNode.elem "PubmedArticleSet" none
      [XmlNode.elem "Grant" none [XmlNode.elem "Agency" (some "NIH") []]]) =
      [[("funder", Val.obj [("@type", Val.s "Organization"), ("name", Val.s "NIH")])]] := by
  constructor
  · intro root
    rw [grantsOf, specGrants, grantsOf_foldl]
    simp
  · simp [grantsOf, findallDesc, collectTagList, XmlNode.children, grantDictOf, findChild,
      XmlNode.tag, XmlNode.text, valOfText]
